import Mathlib

/-!
Verification development for the gemini-vibecut media pipeline.

Shallow embedding of the pure/deterministic core of the repository:

* `src/skills/align_captions/align_captions.py` — word-timing sanitization,
  phrase grouping, multi-line dialogue alignment;
* `src/skills/compose_final/compose_final.py` — resolution probing and the
  normalize-then-concatenate decision, temp-file cleanup;
* `src/skills/verify_output.py` — `verify_video` and `VerificationResult`;
* `src/skills/generate_animated_story/generate_animated_story.py` — the
  per-clip retry loop and the resolution-mismatch repair retry.

External effects (subprocess calls, model inference, the filesystem) are
modelled as explicit inputs: probe outcomes, per-attempt generation outcomes
and ffmpeg success flags are parameters of the embedded functions.
Python `int` is embedded as `Int`; ffprobe durations (floats parsed from
decimal strings) are embedded as `ℚ`.
-/

namespace VibeCut

/-- Word-level timing segment (`WordSegment` dataclass /
the `{"text", "startMs", "endMs"}` dicts of `align_captions.py`). -/
structure WordSeg where
  text : String
  startMs : Int
  endMs : Int
  deriving DecidableEq, Repr

/-- Phrase-level caption with word timing (`AlignedCaption` dataclass). -/
structure AlignedCaption where
  text : String
  startMs : Int
  endMs : Int
  words : List WordSeg
  deriving DecidableEq, Repr

/-- Constant `MIN_WORD_DURATION_MS = 50` of `align_captions.py`. -/
def MIN_WORD_DURATION_MS : Int := 50

/-- Repair of one segment in `_sanitize_word_segments`
(`align_captions.py`, lines 65-77): fix `endMs <= startMs` segments against
the next word's original `startMs` when there is a next word (`max_end`),
uncapped at `startMs + MIN_WORD_DURATION_MS` for the last word; nudge by
1 ms when the capped value is still degenerate.  The next word's `startMs`
is never mutated by the Python loop, so passing the original value is
faithful to the in-place mutation. -/
def sanitizeSeg (s : WordSeg) (nextStart? : Option Int) : WordSeg :=
  if s.endMs ≤ s.startMs then
    if min (s.startMs + MIN_WORD_DURATION_MS) (nextStart?.getD (s.startMs + MIN_WORD_DURATION_MS))
        ≤ s.startMs then
      { s with endMs := s.startMs + 1 }
    else
      { s with
        endMs := min (s.startMs + MIN_WORD_DURATION_MS)
          (nextStart?.getD (s.startMs + MIN_WORD_DURATION_MS)) }
  else s

/-- Embedding of `_sanitize_word_segments` (`align_captions.py`,
lines 48-79): every segment is repaired against the next segment's
(unmutated) `startMs`; the last segment is uncapped. -/
def sanitizeWordSegments : List WordSeg → List WordSeg
  | [] => []
  | [s] => [sanitizeSeg s none]
  | s :: t :: rest => sanitizeSeg s (some t.startMs) :: sanitizeWordSegments (t :: rest)

/-- Adjacent-pair non-overlap: `words[i].end_ms <= words[i+1].start_ms`. -/
def NoAdjacentOverlap (l : List WordSeg) : Prop :=
  List.Chain' (fun a b => a.endMs ≤ b.startMs) l

lemma sanitizeSeg_startMs (s : WordSeg) (n : Option Int) :
    (sanitizeSeg s n).startMs = s.startMs := by
  unfold sanitizeSeg
  by_cases h1 : s.endMs ≤ s.startMs
  · rw [if_pos h1]
    by_cases h2 : min (s.startMs + MIN_WORD_DURATION_MS) (n.getD (s.startMs + MIN_WORD_DURATION_MS))
        ≤ s.startMs
    · rw [if_pos h2]
    · rw [if_neg h2]
  · rw [if_neg h1]

lemma sanitizeSeg_pos (s : WordSeg) (n : Option Int) :
    (sanitizeSeg s n).startMs < (sanitizeSeg s n).endMs := by
  unfold sanitizeSeg
  by_cases h1 : s.endMs ≤ s.startMs
  · rw [if_pos h1]
    by_cases h2 : min (s.startMs + MIN_WORD_DURATION_MS) (n.getD (s.startMs + MIN_WORD_DURATION_MS))
        ≤ s.startMs
    · rw [if_pos h2]
      show s.startMs < s.startMs + 1
      omega
    · rw [if_neg h2]
      exact not_le.mp h2
  · rw [if_neg h1]
    exact not_le.mp h1

lemma sanitizeWordSegments_mem (l : List WordSeg) :
    ∀ s ∈ sanitizeWordSegments l, ∃ s₀ n, s = sanitizeSeg s₀ n := by
  induction l with
  | nil => intro s hs; simp [sanitizeWordSegments] at hs
  | cons a t ih =>
    cases t with
    | nil =>
      intro s hs
      simp only [sanitizeWordSegments, List.mem_singleton] at hs
      exact ⟨a, none, hs⟩
    | cons b r =>
      intro s hs
      simp only [sanitizeWordSegments, List.mem_cons] at hs
      rcases hs with h | h
      · exact ⟨a, some b.startMs, h⟩
      · exact ih s h

lemma sanitizeWordSegments_head_startMs (a : WordSeg) (t : List WordSeg) :
    ∃ a' t', sanitizeWordSegments (a :: t) = a' :: t' ∧ a'.startMs = a.startMs := by
  cases t with
  | nil => exact ⟨sanitizeSeg a none, [], rfl, sanitizeSeg_startMs a none⟩
  | cons b r =>
    exact ⟨sanitizeSeg a (some b.startMs), sanitizeWordSegments (b :: r), rfl,
      sanitizeSeg_startMs a _⟩

/-- C1: for every input list of word segments, after `_sanitize_word_segments`
every segment satisfies `end_ms > start_ms`; a degenerate segment is repaired
to `end_ms = min(start_ms + 50, next word's start_ms)` (uncapped for the last
word) and nudged to `start_ms + 1` when the repaired value is still
`<= start_ms` — the repair rule is `sanitizeSeg`, and the resulting invariant
is strict positivity of every output segment's duration. -/
theorem sanitize_duration_positive (l : List WordSeg) :
    ∀ s ∈ sanitizeWordSegments l, s.startMs < s.endMs := by
  intro s hs
  obtain ⟨s₀, n, rfl⟩ := sanitizeWordSegments_mem l s hs
  exact sanitizeSeg_pos s₀ n

/-- Witness for C1 at a concrete input: a zero-duration word followed by a
later word is repaired to 50 ms and satisfies the invariant. -/
theorem sanitize_duration_positive_witness :
    (⟨"hi", 0, 50⟩ : WordSeg) ∈
        sanitizeWordSegments [⟨"hi", 0, 0⟩, ⟨"there", 200, 400⟩] ∧
      (0 : Int) < 50 :=
  ⟨by decide,
    sanitize_duration_positive [⟨"hi", 0, 0⟩, ⟨"there", 200, 400⟩] ⟨"hi", 0, 50⟩ (by decide)⟩

/-- C2 counterexample: the claim "after `_sanitize_word_segments` every
adjacent pair satisfies `words[i].end_ms <= words[i+1].start_ms`" is false as
stated.  When a degenerate word's successor starts at the identical
millisecond, the 1 ms nudge itself introduces an overlap: on
`[("a",100,100), ("b",100,200)]` the first word is repaired to
`(100,101)` while the next starts at `100`. -/
theorem sanitize_no_overlap_cex :
    ¬ NoAdjacentOverlap
      (sanitizeWordSegments [⟨"a", 100, 100⟩, ⟨"b", 100, 200⟩]) := by
  have h : sanitizeWordSegments [⟨"a", 100, 100⟩, ⟨"b", 100, 200⟩]
      = [⟨"a", 100, 101⟩, ⟨"b", 100, 200⟩] := by rfl
  unfold NoAdjacentOverlap
  rw [h]
  simp only [List.chain'_cons, List.chain'_singleton, and_true]
  omega

/-- Orderliness of the raw aligner output assumed by the amended C2: adjacent
segments have strictly increasing `startMs`, and a non-degenerate segment does
not already overlap its successor's start. -/
def WellOrderedInput (l : List WordSeg) : Prop :=
  List.Chain'
    (fun a b => a.startMs < b.startMs ∧ (a.startMs < a.endMs → a.endMs ≤ b.startMs)) l

/-- C2 amended: for input word lists whose adjacent segments have strictly
increasing start times and whose non-degenerate segments do not already
overlap the next segment's start, `_sanitize_word_segments` yields
`words[i].end_ms <= words[i+1].start_ms` for every adjacent pair — the repair
itself never introduces an overlap on such inputs. -/
theorem sanitize_no_overlap_of_wellOrdered (l : List WordSeg)
    (h : WellOrderedInput l) : NoAdjacentOverlap (sanitizeWordSegments l) := by
  induction l with
  | nil => simp [sanitizeWordSegments, NoAdjacentOverlap]
  | cons a t ih =>
    cases t with
    | nil => simp [sanitizeWordSegments, NoAdjacentOverlap, List.chain'_singleton]
    | cons b r =>
      unfold WellOrderedInput at h
      rw [List.chain'_cons] at h
      obtain ⟨⟨hlt, hno⟩, htail⟩ := h
      have htail' : NoAdjacentOverlap (sanitizeWordSegments (b :: r)) := ih htail
      obtain ⟨b', t', heq, hstart⟩ := sanitizeWordSegments_head_startMs b r
      show List.Chain' _ (sanitizeSeg a (some b.startMs) :: sanitizeWordSegments (b :: r))
      rw [heq]
      unfold NoAdjacentOverlap at htail'
      rw [heq] at htail'
      refine List.chain'_cons.mpr ⟨?_, htail'⟩
      rw [hstart]
      unfold sanitizeSeg
      by_cases h1 : a.endMs ≤ a.startMs
      · rw [if_pos h1]
        have hmin : a.startMs <
            min (a.startMs + MIN_WORD_DURATION_MS)
              ((some b.startMs).getD (a.startMs + MIN_WORD_DURATION_MS)) := by
          simp only [Option.getD_some]
          unfold MIN_WORD_DURATION_MS
          omega
        rw [if_neg (not_le.mpr hmin)]
        show min (a.startMs + MIN_WORD_DURATION_MS) ((some b.startMs).getD _) ≤ b.startMs
        simp only [Option.getD_some]
        exact min_le_right _ _
      · rw [if_neg h1]
        exact hno (not_le.mp h1)

lemma wellOrdered_example :
    WellOrderedInput [⟨"hi", 0, 0⟩, ⟨"there", 200, 400⟩] := by
  unfold WellOrderedInput
  simp only [List.chain'_cons, List.chain'_singleton, and_true]
  refine ⟨by omega, ?_⟩
  intro h
  omega

/-- Witness for the amended C2 at a concrete well-ordered input containing a
zero-duration word. -/
theorem sanitize_no_overlap_of_wellOrdered_witness :
    WellOrderedInput [⟨"hi", 0, 0⟩, ⟨"there", 200, 400⟩] ∧
      NoAdjacentOverlap (sanitizeWordSegments [⟨"hi", 0, 0⟩, ⟨"there", 200, 400⟩]) :=
  ⟨wellOrdered_example,
    sanitize_no_overlap_of_wellOrdered [⟨"hi", 0, 0⟩, ⟨"there", 200, 400⟩] wellOrdered_example⟩

/-- Character class of the regex `[,.!?;:"()[\]{}\s]` used throughout
`align_captions.py` for cleaning and punctuation-only tests (the Python class
writes `"` three times; `\x7b`/`\x7d` are the brace characters).  Python's
`\s` also matches some non-ASCII whitespace, which never occurs in these
pipelines and is not modelled. -/
def isPunctChar (c : Char) : Bool :=
  c = ',' || c = '.' || c = '!' || c = '?' || c = ';' || c = ':' || c = '"' ||
  c = '(' || c = ')' || c = '[' || c = ']' || c = Char.ofNat 123 || c = Char.ofNat 125 ||
  c = ' ' || c = '\t' || c = '\n' || c = Char.ofNat 13 || c = Char.ofNat 11 || c = Char.ofNat 12

/-- Test `re.match(r'^[class]+$', s)`: `s` is nonempty and consists solely of
class characters. -/
def isPunctOnly (s : String) : Bool :=
  !(s == "") && s.data.all isPunctChar

/-- Embedding of `re.sub(r'[class]', '', s)`: remove every class character. -/
def cleanText (s : String) : String :=
  ⟨s.data.filter (fun c => !isPunctChar c)⟩

/-- Whitespace characters stripped by Python `str.strip()` (ASCII subset). -/
def isSpaceChar (c : Char) : Bool :=
  c = ' ' || c = '\t' || c = '\n' || c = Char.ofNat 13 || c = Char.ofNat 11 || c = Char.ofNat 12

/-- Python `str.strip()` on a character list. -/
def trimList (cs : List Char) : List Char :=
  ((cs.dropWhile isSpaceChar).reverse.dropWhile isSpaceChar).reverse

/-- Embedding of `re.split(r'[...]', text)` for a single-character class:
split at every occurrence of a class character, keeping empty pieces. -/
def splitClass (p : Char → Bool) : List Char → List (List Char)
  | [] => [[]]
  | c :: rest =>
    if p c then [] :: splitClass p rest
    else
      match splitClass p rest with
      | [] => [[c]]
      | h :: t => (c :: h) :: t

/-- Embedding of the English branch of `_split_into_phrases`
(`align_captions.py`, lines 119-123): split on `[.!?;]`, strip each part and
drop empties.  The Chinese branch is not modelled; the grouping theorems below
quantify over an arbitrary phrase list and so cover it as well. -/
def splitIntoPhrasesEN (text : String) : List String :=
  ((splitClass (fun c => c = '.' || c = '!' || c = '?' || c = ';') text.data).map
    (fun cs => (⟨trimList cs⟩ : String))).filter (fun ph => !(ph == ""))

/-- Position-building loop of `_group_into_phrases` (`align_captions.py`,
lines 326-335): for each non-punctuation word, record
`(start_pos, end_pos, index)` in the concatenated clean word stream. -/
def wordPositionsGo : List WordSeg → Nat → Nat → List (Nat × Nat × Nat)
  | [], _, _ => []
  | w :: rest, pos, i =>
    if isPunctOnly w.text then wordPositionsGo rest pos (i + 1)
    else (pos, pos + w.text.length, i) :: wordPositionsGo rest (pos + w.text.length) (i + 1)

/-- Word positions of `_group_into_phrases`, starting at position 0, index 0. -/
def wordPositions (ws : List WordSeg) : List (Nat × Nat × Nat) :=
  wordPositionsGo ws 0 0

/-- Phrase loop of `_group_into_phrases` (`align_captions.py`, lines 340-365)
reduced to the assigned word indices: phrase `k` covers the clean-character
interval `[current_pos, current_pos + len(phrase_clean))` and is assigned
every word position overlapping it (`start_pos < phrase_end and
end_pos > phrase_start`). -/
def assignedGo (positions : List (Nat × Nat × Nat)) : List String → Nat → List (List Nat)
  | [], _ => []
  | phrase :: rest, currentPos =>
    let phraseEnd := currentPos + (cleanText phrase).length
    (positions.filterMap fun p =>
        if p.1 < phraseEnd ∧ currentPos < p.2.1 then some p.2.2 else none)
      :: assignedGo positions rest phraseEnd

/-- Per-phrase assigned word indices of `_group_into_phrases`. -/
def assignedIndices (ws : List WordSeg) (phrases : List String) : List (List Nat) :=
  assignedGo (wordPositions ws) phrases 0

/-- Phrase loop of `_group_into_phrases` (`align_captions.py`, lines 340-365):
materialize the phrase captions; a phrase with no assigned words is dropped
(`if phrase_words:`).  The phrase's start/end is its first/last assigned
word's start/end. -/
def groupGo (ws : List WordSeg) (positions : List (Nat × Nat × Nat)) :
    List String → Nat → List AlignedCaption
  | [], _ => []
  | phrase :: rest, currentPos =>
    let phraseEnd := currentPos + (cleanText phrase).length
    let phraseWords := positions.filterMap fun p =>
      if p.1 < phraseEnd ∧ currentPos < p.2.1 then ws.get? p.2.2 else none
    match phraseWords with
    | [] => groupGo ws positions rest phraseEnd
    | fw :: frest =>
      { text := phrase, startMs := fw.startMs,
        endMs := ((fw :: frest).getLast (List.cons_ne_nil fw frest)).endMs,
        words := fw :: frest } :: groupGo ws positions rest phraseEnd

/-- Embedding of `CaptionAligner._group_into_phrases` with the phrase list as
input (in the source it is `_split_into_phrases(text, language)`). -/
def groupIntoPhrases (ws : List WordSeg) (phrases : List String) : List AlignedCaption :=
  groupGo ws (wordPositions ws) phrases 0

/-- Clean-character end offsets of each phrase, in order (the successive
values of `current_pos` after each phrase). -/
def phraseBounds : List String → Nat → List Nat
  | [], _ => []
  | phrase :: rest, cur =>
    (cur + (cleanText phrase).length) :: phraseBounds rest (cur + (cleanText phrase).length)

/-- Hypothesis of the amended C7: no word's clean-character span strictly
straddles an internal phrase boundary (every boundary except the final
phrase's end). -/
def NoStraddle (ws : List WordSeg) (phrases : List String) : Prop :=
  ∀ p ∈ wordPositions ws, ∀ b ∈ (phraseBounds phrases 0).dropLast,
    ¬ (p.1 < b ∧ b < p.2.1)

instance (ws : List WordSeg) (phrases : List String) : Decidable (NoStraddle ws phrases) :=
  inferInstanceAs (Decidable (∀ p ∈ wordPositions ws,
    ∀ b ∈ (phraseBounds phrases 0).dropLast, ¬ (p.1 < b ∧ b < p.2.1)))

lemma wordPositionsGo_idx_ge (ws : List WordSeg) :
    ∀ pos i, ∀ p ∈ wordPositionsGo ws pos i, i ≤ p.2.2 := by
  induction ws with
  | nil => intro pos i p hp; simp [wordPositionsGo] at hp
  | cons w rest ih =>
    intro pos i p hp
    rw [wordPositionsGo] at hp
    by_cases hpunct : isPunctOnly w.text
    · rw [if_pos hpunct] at hp
      have := ih pos (i + 1) p hp
      omega
    · rw [if_neg hpunct] at hp
      rcases List.mem_cons.mp hp with h | h
      · subst h; simp
      · have := ih (pos + w.text.length) (i + 1) p h
        omega

lemma wordPositionsGo_idx_nodup (ws : List WordSeg) :
    ∀ pos i, ((wordPositionsGo ws pos i).map (fun p => p.2.2)).Nodup := by
  induction ws with
  | nil => intro pos i; simp [wordPositionsGo]
  | cons w rest ih =>
    intro pos i
    rw [wordPositionsGo]
    by_cases hpunct : isPunctOnly w.text
    · rw [if_pos hpunct]; exact ih pos (i + 1)
    · rw [if_neg hpunct]
      simp only [List.map_cons, List.nodup_cons]
      refine ⟨?_, ih (pos + w.text.length) (i + 1)⟩
      intro hmem
      obtain ⟨p, hp, hpi⟩ := List.mem_map.mp hmem
      have := wordPositionsGo_idx_ge rest (pos + w.text.length) (i + 1) p hp
      omega

lemma filterMap_ite_eq {α β : Type} (c : α → Prop) [DecidablePred c] (g : α → β)
    (l : List α) :
    (l.filterMap fun a => if c a then some (g a) else none)
      = (l.filter (fun a => decide (c a))).map g := by
  induction l with
  | nil => rfl
  | cons a t ih =>
    by_cases h : c a
    · simp [List.filterMap_cons, List.filter_cons, h, ih]
    · simp [List.filterMap_cons, List.filter_cons, h, ih]

lemma assignedGo_mem_exists (positions : List (Nat × Nat × Nat)) :
    ∀ phrases cur l, l ∈ assignedGo positions phrases cur → ∀ i ∈ l,
      ∃ p ∈ positions, p.2.2 = i ∧ cur < p.2.1 := by
  intro phrases
  induction phrases with
  | nil => intro cur l hl; simp [assignedGo] at hl
  | cons phrase rest ih =>
    intro cur l hl i hi
    rw [assignedGo] at hl
    rcases List.mem_cons.mp hl with h | h
    · subst h
      obtain ⟨p, hp, hsome⟩ := List.mem_filterMap.mp hi
      by_cases hc : p.1 < cur + (cleanText phrase).length ∧ cur < p.2.1
      · rw [if_pos hc] at hsome
        exact ⟨p, hp, Option.some.inj hsome, hc.2⟩
      · rw [if_neg hc] at hsome; exact absurd hsome (by simp)
    · obtain ⟨p, hp, hpi, hcur⟩ := ih (cur + (cleanText phrase).length) l h i hi
      exact ⟨p, hp, hpi, by omega⟩

lemma assignedGo_head_exists (positions : List (Nat × Nat × Nat))
    (phrase : String) (cur : Nat) (i : Nat)
    (hi : i ∈ positions.filterMap fun p =>
      if p.1 < cur + (cleanText phrase).length ∧ cur < p.2.1 then some p.2.2 else none) :
    ∃ p ∈ positions, p.2.2 = i ∧ p.1 < cur + (cleanText phrase).length ∧ cur < p.2.1 := by
  obtain ⟨p, hp, hsome⟩ := List.mem_filterMap.mp hi
  by_cases hc : p.1 < cur + (cleanText phrase).length ∧ cur < p.2.1
  · rw [if_pos hc] at hsome
    exact ⟨p, hp, Option.some.inj hsome, hc⟩
  · rw [if_neg hc] at hsome; exact absurd hsome (by simp)

lemma phraseBounds_ne_nil (phrase : String) (rest : List String) (cur : Nat) :
    phraseBounds (phrase :: rest) cur ≠ [] := by
  rw [phraseBounds]; exact List.cons_ne_nil _ _

lemma assignedGo_flatten_nodup (positions : List (Nat × Nat × Nat))
    (hinj : ((positions.map fun p => p.2.2)).Nodup) :
    ∀ phrases cur,
      (∀ p ∈ positions, ∀ b ∈ (phraseBounds phrases cur).dropLast,
        ¬ (p.1 < b ∧ b < p.2.1)) →
      (List.flatten (assignedGo positions phrases cur)).Nodup := by
  intro phrases
  induction phrases with
  | nil => intro cur _; simp [assignedGo]
  | cons phrase rest ih =>
    intro cur hb
    rw [assignedGo, List.flatten_cons]
    rw [List.nodup_append]
    refine ⟨?_, ?_, ?_⟩
    · rw [filterMap_ite_eq (fun p => p.1 < cur + (cleanText phrase).length ∧ cur < p.2.1)
        (fun p => p.2.2) positions]
      exact hinj.sublist ((List.filter_sublist positions).map _)
    · refine ih (cur + (cleanText phrase).length) ?_
      intro p hp b hbmem
      refine hb p hp b ?_
      rw [phraseBounds]
      cases hrest : phraseBounds rest (cur + (cleanText phrase).length) with
      | nil => rw [hrest] at hbmem; simp at hbmem
      | cons b0 brest =>
        rw [hrest] at hbmem
        rw [List.dropLast_cons₂]
        exact List.mem_cons_of_mem _ hbmem
    · intro i hi hmem
      obtain ⟨l, hl, hil⟩ := List.mem_flatten.mp hmem
      obtain ⟨q, hq, hqi, hqcur⟩ :=
        assignedGo_mem_exists positions rest (cur + (cleanText phrase).length) l hl i hil
      obtain ⟨p, hp, hpi, hplt, hpcur⟩ :=
        assignedGo_head_exists positions phrase cur i hi
      have hpq : p = q :=
        List.inj_on_of_nodup_map hinj hp hq (by rw [hpi, hqi])
      subst hpq
      have hrest_ne : rest ≠ [] := by
        intro hre; subst hre; simp [assignedGo] at hl
      obtain ⟨r0, rr, hre⟩ := List.exists_cons_of_ne_nil hrest_ne
      refine hb p hp (cur + (cleanText phrase).length) ?_ ⟨hplt, by omega⟩
      rw [phraseBounds, hre, phraseBounds, List.dropLast_cons₂]
      exact List.mem_cons_self _ _

lemma groupGo_words_sub (ws : List WordSeg) (positions : List (Nat × Nat × Nat)) :
    ∀ phrases cur c, c ∈ groupGo ws positions phrases cur → ∀ w ∈ c.words, w ∈ ws := by
  intro phrases
  induction phrases with
  | nil => intro cur c hc; simp [groupGo] at hc
  | cons phrase rest ih =>
    intro cur c hc w hw
    rw [groupGo] at hc
    cases hpw : positions.filterMap fun p =>
        if p.1 < cur + (cleanText phrase).length ∧ cur < p.2.1 then ws.get? p.2.2
        else none with
    | nil =>
      rw [hpw] at hc
      exact ih (cur + (cleanText phrase).length) c hc w hw
    | cons fw frest =>
      rw [hpw] at hc
      rcases List.mem_cons.mp hc with h | h
      · subst h
        have hww : w ∈ positions.filterMap fun p =>
            if p.1 < cur + (cleanText phrase).length ∧ cur < p.2.1 then ws.get? p.2.2
            else none := by
          rw [hpw]; exact hw
        obtain ⟨p, _, hsome⟩ := List.mem_filterMap.mp hww
        by_cases hcnd : p.1 < cur + (cleanText phrase).length ∧ cur < p.2.1
        · rw [if_pos hcnd] at hsome
          exact List.get?_mem hsome
        · rw [if_neg hcnd] at hsome; exact absurd hsome (by simp)
      · exact ih (cur + (cleanText phrase).length) c h w hw

lemma groupGo_words_ne_nil (ws : List WordSeg) (positions : List (Nat × Nat × Nat)) :
    ∀ phrases cur c, c ∈ groupGo ws positions phrases cur → c.words ≠ [] := by
  intro phrases
  induction phrases with
  | nil => intro cur c hc; simp [groupGo] at hc
  | cons phrase rest ih =>
    intro cur c hc
    rw [groupGo] at hc
    cases hpw : positions.filterMap fun p =>
        if p.1 < cur + (cleanText phrase).length ∧ cur < p.2.1 then ws.get? p.2.2
        else none with
    | nil =>
      rw [hpw] at hc
      exact ih (cur + (cleanText phrase).length) c hc
    | cons fw frest =>
      rw [hpw] at hc
      rcases List.mem_cons.mp hc with h | h
      · subst h; exact List.cons_ne_nil fw frest
      · exact ih (cur + (cleanText phrase).length) c h

/-- C7 counterexample: the claim that each word is assigned to at most one
phrase is false as stated.  On transcript `"ab. c"` with the single aligner
word `"abc"` (whose clean span straddles the boundary between the two
phrases), word index 0 is assigned to both phrases, so the flattened
assignment has a duplicate. -/
theorem grouping_dup_cex :
    assignedIndices [⟨"abc", 0, 100⟩] (splitIntoPhrasesEN "ab. c") = [[0], [0]] ∧
      ¬ (List.flatten (assignedIndices [⟨"abc", 0, 100⟩] (splitIntoPhrasesEN "ab. c"))).Nodup :=
  ⟨by decide, by decide⟩

/-- C7 amended: the words assigned across all output phrases form a subset of
the input words, a phrase with zero assigned words is never emitted, and —
provided no word's clean-character span strictly straddles an internal phrase
boundary — each word is assigned to at most one phrase (the flattened
per-phrase index assignment has no duplicates).  Without the no-straddle
hypothesis a word overlapping two phrase intervals is emitted in both. -/
theorem grouping_conservation (ws : List WordSeg) (phrases : List String)
    (h : NoStraddle ws phrases) :
    (∀ c ∈ groupIntoPhrases ws phrases, ∀ w ∈ c.words, w ∈ ws) ∧
    (∀ c ∈ groupIntoPhrases ws phrases, c.words ≠ []) ∧
    (List.flatten (assignedIndices ws phrases)).Nodup := by
  refine ⟨?_, ?_, ?_⟩
  · intro c hc w hw
    exact groupGo_words_sub ws (wordPositions ws) phrases 0 c hc w hw
  · intro c hc
    exact groupGo_words_ne_nil ws (wordPositions ws) phrases 0 c hc
  · exact assignedGo_flatten_nodup (wordPositions ws)
      (wordPositionsGo_idx_nodup ws 0 0) phrases 0 h

/-- Witness for the amended C7: two words, one per phrase, nothing straddles,
and the flattened assignment is duplicate-free. -/
theorem grouping_conservation_witness :
    NoStraddle [⟨"hi", 0, 10⟩, ⟨"world", 20, 50⟩] (splitIntoPhrasesEN "hi. world") ∧
      (List.flatten (assignedIndices [⟨"hi", 0, 10⟩, ⟨"world", 20, 50⟩]
        (splitIntoPhrasesEN "hi. world"))).Nodup :=
  ⟨by decide,
    (grouping_conservation [⟨"hi", 0, 10⟩, ⟨"world", 20, 50⟩]
      (splitIntoPhrasesEN "hi. world") (by decide)).2.2⟩

/-- Timestamp shift applied to a word in `align_dialogue_lines`
(`align_captions.py`, lines 494-501). -/
def offsetWord (off : Int) (w : WordSeg) : WordSeg :=
  { w with startMs := w.startMs + off, endMs := w.endMs + off }

/-- Timestamp shift applied to one caption in `align_dialogue_lines`
(`align_captions.py`, lines 489-503). -/
def offsetCaption (off : Int) (c : AlignedCaption) : AlignedCaption :=
  { text := c.text, startMs := c.startMs + off, endMs := c.endMs + off,
    words := c.words.map (offsetWord off) }

/-- Embedding of the loop of `CaptionAligner.align_dialogue_lines`
(`align_captions.py`, lines 480-509), keeping the per-line list structure
(the source appends all adjusted captions to one flat `results` list; the
flat list is the flattening of this one).  The per-line alignment results
(`align_audio` with `phrase_level=False`, an external model call followed by
sanitization) are the input.  After a non-empty line, the running
`time_offset` becomes the end time of that line's last adjusted caption;
an empty line leaves the offset unchanged (`if captions:`). -/
def alignDialogueLinesPer (off : Int) : List (List AlignedCaption) → List (List AlignedCaption)
  | [] => []
  | caps :: rest =>
    match (caps.map (offsetCaption off)).getLast? with
    | none => caps.map (offsetCaption off) :: alignDialogueLinesPer off rest
    | some last => caps.map (offsetCaption off) :: alignDialogueLinesPer last.endMs rest

/-- Flat result of `align_dialogue_lines`, as returned by the source. -/
def align_dialogue_lines (lines : List (List AlignedCaption)) : List AlignedCaption :=
  (alignDialogueLinesPer 0 lines).flatten

/-- C8 counterexample: the claim that every caption of line `k+1` starts at
or after every caption of line `k` ends is false as stated.  If a line's
captions are not ordered by end time (nothing in the pipeline sorts them),
the offset is taken from the *last* caption, not the latest one: with line 0
`[("a",0,500), ("b",0,300)]` the offset becomes 300, and line 1's caption
`("c",0,100)` is placed at `(300,400)`, starting before caption "a" ends. -/
theorem dialogue_offset_cex :
    (⟨"a", 0, 500, []⟩ : AlignedCaption) ∈
        (alignDialogueLinesPer 0
          [[⟨"a", 0, 500, []⟩, ⟨"b", 0, 300, []⟩], [⟨"c", 0, 100, []⟩]]).getD 0 [] ∧
      (⟨"c", 300, 400, []⟩ : AlignedCaption) ∈
        (alignDialogueLinesPer 0
          [[⟨"a", 0, 500, []⟩, ⟨"b", 0, 300, []⟩], [⟨"c", 0, 100, []⟩]]).getD 1 [] ∧
      ¬ ((⟨"a", 0, 500, []⟩ : AlignedCaption).endMs
          ≤ (⟨"c", 300, 400, []⟩ : AlignedCaption).startMs) := by
  refine ⟨by decide, by decide, by decide⟩

lemma alignDialogueLinesPer_head_lb (off : Int) (lines : List (List AlignedCaption))
    (hpos : ∀ line ∈ lines, ∀ c ∈ line, 0 ≤ c.startMs)
    (l0 : List AlignedCaption)
    (h0 : (alignDialogueLinesPer off lines).get? 0 = some l0) :
    ∀ c ∈ l0, off ≤ c.startMs := by
  cases lines with
  | nil => simp [alignDialogueLinesPer] at h0
  | cons caps rest =>
    have hhead : l0 = caps.map (offsetCaption off) := by
      rw [alignDialogueLinesPer] at h0
      cases hl : (caps.map (offsetCaption off)).getLast? with
      | none => rw [hl] at h0; exact (Option.some.inj h0).symm
      | some last => rw [hl] at h0; exact (Option.some.inj h0).symm
    subst hhead
    intro c hc
    obtain ⟨c₀, hc₀, rfl⟩ := List.mem_map.mp hc
    have := hpos caps (List.mem_cons_self _ _) c₀ hc₀
    show off ≤ c₀.startMs + off
    omega

/-- C8 amended: in `align_dialogue_lines`, provided each per-line alignment
result has non-negative start times and no caption ending after the line's
last caption (in particular, whenever each line's captions are in
chronological order), every caption of line `k+1` starts at or after every
caption of line `k` ends; the running offset is, by construction, the end
time of the previous non-empty line's last adjusted caption.  Without that
ordering proviso the offset is taken from the last caption even when an
earlier caption of the same line ends later, breaking monotonicity. -/
theorem dialogue_offset_monotone (lines : List (List AlignedCaption))
    (hpos : ∀ line ∈ lines, ∀ c ∈ line, 0 ≤ c.startMs)
    (hlast : ∀ line ∈ lines, ∀ c ∈ line, c.endMs ≤ (line.getLastD c).endMs)
    (k : Nat) (lk lk1 : List AlignedCaption)
    (hk : (alignDialogueLinesPer 0 lines).get? k = some lk)
    (hk1 : (alignDialogueLinesPer 0 lines).get? (k + 1) = some lk1) :
    ∀ c' ∈ lk, ∀ c ∈ lk1, c'.endMs ≤ c.startMs := by
  suffices h : ∀ (off : Int) (lines : List (List AlignedCaption)),
      (∀ line ∈ lines, ∀ c ∈ line, 0 ≤ c.startMs) →
      (∀ line ∈ lines, ∀ c ∈ line, c.endMs ≤ (line.getLastD c).endMs) →
      ∀ (k : Nat) (lk lk1 : List AlignedCaption),
        (alignDialogueLinesPer off lines).get? k = some lk →
        (alignDialogueLinesPer off lines).get? (k + 1) = some lk1 →
        ∀ c' ∈ lk, ∀ c ∈ lk1, c'.endMs ≤ c.startMs by
    exact h 0 lines hpos hlast k lk lk1 hk hk1
  intro off lines
  induction lines generalizing off with
  | nil => intro _ _ k lk lk1 hk _; simp [alignDialogueLinesPer] at hk
  | cons caps rest ih =>
    intro hpos hlast k lk lk1 hk hk1
    have hpos' : ∀ line ∈ rest, ∀ c ∈ line, 0 ≤ c.startMs := fun line hl =>
      hpos line (List.mem_cons_of_mem _ hl)
    have hlast' : ∀ line ∈ rest, ∀ c ∈ line, c.endMs ≤ (line.getLastD c).endMs :=
      fun line hl => hlast line (List.mem_cons_of_mem _ hl)
    rw [alignDialogueLinesPer] at hk hk1
    cases hl : (caps.map (offsetCaption off)).getLast? with
    | none =>
      rw [hl] at hk hk1
      cases k with
      | zero =>
        have hlk : lk = caps.map (offsetCaption off) := (Option.some.inj hk).symm
        have hcaps : caps.map (offsetCaption off) = [] := by
          rcases List.getLast?_eq_none_iff.mp hl with h
          exact h
        intro c' hc'
        rw [hlk, hcaps] at hc'
        simp at hc'
      | succ j =>
        exact ih off hpos' hlast' j lk lk1 hk hk1
    | some last =>
      rw [hl] at hk hk1
      cases k with
      | zero =>
        have hlk : lk = caps.map (offsetCaption off) := (Option.some.inj hk).symm
        intro c' hc' c hc
        have hub : c'.endMs ≤ last.endMs := by
          rw [hlk] at hc'
          obtain ⟨c₀, hc₀, rfl⟩ := List.mem_map.mp hc'
          rw [List.getLast?_map] at hl
          cases hcl : caps.getLast? with
          | none => rw [hcl] at hl; simp at hl
          | some l₀ =>
            rw [hcl] at hl
            have hlast₀ : last = offsetCaption off l₀ := by
              have hl' : some (offsetCaption off l₀) = some last := hl
              exact (Option.some.inj hl').symm
            have hle : c₀.endMs ≤ l₀.endMs := by
              have := hlast caps (List.mem_cons_self _ _) c₀ hc₀
              rwa [List.getLastD_eq_getLast?, hcl, Option.getD_some] at this
            rw [hlast₀]
            show c₀.endMs + off ≤ l₀.endMs + off
            omega
        have hlb : last.endMs ≤ c.startMs :=
          alignDialogueLinesPer_head_lb last.endMs rest hpos' lk1 hk1 c hc
        omega
      | succ j =>
        exact ih last.endMs hpos' hlast' j lk lk1 hk hk1

/-- Witness for the amended C8: two chronologically ordered lines; the second
line's captions start exactly at the first line's last caption's end. -/
theorem dialogue_offset_monotone_witness :
    (alignDialogueLinesPer 0 [[⟨"a", 0, 500, []⟩, ⟨"b", 600, 700, []⟩], [⟨"c", 0, 100, []⟩]]).get? 0
        = some [⟨"a", 0, 500, []⟩, ⟨"b", 600, 700, []⟩] ∧
      (alignDialogueLinesPer 0 [[⟨"a", 0, 500, []⟩, ⟨"b", 600, 700, []⟩], [⟨"c", 0, 100, []⟩]]).get? 1
        = some [⟨"c", 700, 800, []⟩] ∧
      (∀ c' ∈ [(⟨"a", 0, 500, []⟩ : AlignedCaption), ⟨"b", 600, 700, []⟩],
        ∀ c ∈ [(⟨"c", 700, 800, []⟩ : AlignedCaption)], c'.endMs ≤ c.startMs) :=
  ⟨by decide, by decide,
    dialogue_offset_monotone [[⟨"a", 0, 500, []⟩, ⟨"b", 600, 700, []⟩], [⟨"c", 0, 100, []⟩]]
      (by decide) (by decide) 0 [⟨"a", 0, 500, []⟩, ⟨"b", 600, 700, []⟩] [⟨"c", 700, 800, []⟩]
      (by decide) (by decide)⟩

/-- Stream entry of the ffprobe JSON as consumed by `verify_video`
(`verify_output.py`, lines 221-251): only `codec_type`, `width`, `height`
and `duration` are read (`codec_name` and `nb_streams` are requested but
never used).  The numeric duration string is modelled as `Option ℚ`
(`none` = key absent). -/
structure FfStream where
  codecType : String
  width : Nat
  height : Nat
  duration : Option ℚ
  deriving DecidableEq

/-- Parsed ffprobe output: the stream list and the format-level duration. -/
structure FfProbeData where
  streams : List FfStream
  fmtDuration : Option ℚ
  deriving DecidableEq

/-- Outcome of running ffprobe in `verify_video`: a raised
`CalledProcessError`/`JSONDecodeError` (with the exception text that gets
interpolated into the failure message) or parsed JSON data. -/
inductive ProbeOutcome where
  | fail (errText : String)
  | ok (data : FfProbeData)
  deriving DecidableEq

/-- Embedding of the `VerificationResult` dataclass (`verify_output.py`,
lines 146-157). -/
structure VerificationResult where
  passed : Bool
  checks : List String
  failures : List String
  actualDuration : ℚ
  actualWidth : Nat
  actualHeight : Nat
  hasVideo : Bool
  hasAudio : Bool
  fileSizeBytes : Nat
  deriving DecidableEq

/-- Initial result `VerificationResult(passed=True)` of `verify_video`. -/
def initResult : VerificationResult :=
  { passed := true, checks := [], failures := [], actualDuration := 0,
    actualWidth := 0, actualHeight := 0, hasVideo := false, hasAudio := false,
    fileSizeBytes := 0 }

/-- Pattern `result.checks.append(msg)` of `verify_video`. -/
def addCheck (r : VerificationResult) (m : String) : VerificationResult :=
  { r with checks := r.checks ++ [m] }

/-- Pattern `result.passed = False; result.failures.append(msg)` of
`verify_video` — the only way `passed` or `failures` ever change. -/
def addFailure (r : VerificationResult) (m : String) : VerificationResult :=
  { r with passed := false, failures := r.failures ++ [m] }

/-- Check 2 of `verify_video` (file size, lines 195-202).  Numeric values are
rendered with `toString` instead of Python's fixed-point formatting; the
message prefixes, which all downstream logic keys on, are verbatim. -/
def checkFileSizeStep (r : VerificationResult) (fileSize minFileSize : Nat) :
    VerificationResult :=
  if fileSize < minFileSize then
    addFailure r ("File too small: " ++ toString fileSize ++ " bytes (min "
      ++ toString minFileSize ++ ")")
  else addCheck r ("file_size=" ++ toString fileSize)

/-- Check 5 of `verify_video` (audio stream, lines 239-243). -/
def checkAudioStep (r : VerificationResult) (requireAudio audioEmpty : Bool) :
    VerificationResult :=
  if requireAudio && audioEmpty then addFailure r "No audio stream found (required)"
  else if !audioEmpty then addCheck r "has_audio_stream"
  else r

/-- Check 6 of `verify_video` (duration within tolerance, lines 254-263). -/
def checkDurationStep (r : VerificationResult) (expectedDuration : Option ℚ)
    (actualDur durationTolerance : ℚ) : VerificationResult :=
  match expectedDuration with
  | none => r
  | some ed =>
    if durationTolerance < |actualDur - ed| then
      addFailure r ("Duration mismatch: expected " ++ toString ed ++ "s, got "
        ++ toString actualDur ++ "s (tolerance " ++ toString durationTolerance ++ "s)")
    else addCheck r ("duration=" ++ toString actualDur ++ "s")

/-- Check 7 of `verify_video` (exact resolution, lines 266-274). -/
def checkResolutionStep (r : VerificationResult)
    (expectedWidth expectedHeight : Option Nat) (w h : Nat) : VerificationResult :=
  match expectedWidth, expectedHeight with
  | some ew, some eh =>
    if w ≠ ew ∨ h ≠ eh then
      addFailure r ("Resolution mismatch: expected " ++ toString ew ++ "x" ++ toString eh
        ++ ", got " ++ toString w ++ "x" ++ toString h)
    else addCheck r ("resolution=" ++ toString w ++ "x" ++ toString h)
  | _, _ => r

/-- Assignment `result.file_size_bytes = path.stat().st_size` of
`verify_video` (line 195). -/
def setSizeBytes (r : VerificationResult) (n : Nat) : VerificationResult :=
  { r with fileSizeBytes := n }

/-- Assignments `result.has_video` / `result.has_audio` of `verify_video`
(lines 228-229). -/
def setStreamFlags (r : VerificationResult) (hv ha : Bool) : VerificationResult :=
  { r with hasVideo := hv, hasAudio := ha }

/-- Assignments `result.actual_width/height/duration` of `verify_video`
(lines 247-251). -/
def setVideoProps (r : VerificationResult) (w hh : Nat) (d : ℚ) : VerificationResult :=
  { r with actualWidth := w, actualHeight := hh, actualDuration := d }

/-- Embedding of `verify_video` (`verify_output.py`, lines 160-281).  The
filesystem and subprocess environment is passed explicitly: whether `path`
exists, its size, and the ffprobe outcome.  Control flow is verbatim: three
gating failures return immediately (file missing, ffprobe failure, no video
stream); the remaining checks all run.  The format-level duration is
preferred over the stream duration exactly when the format key is present
(its JSON value is a nonempty string, hence truthy). -/
def verifyVideo (path : String) (fileExists : Bool) (fileSize : Nat)
    (probe : ProbeOutcome) (expectedDuration : Option ℚ)
    (expectedWidth expectedHeight : Option Nat) (requireAudio : Bool)
    (minFileSize : Nat) (durationTolerance : ℚ) : VerificationResult :=
  if !fileExists then addFailure initResult ("File not found: " ++ path)
  else
    let r2 := addCheck initResult "file_exists"
    let r3 := checkFileSizeStep (setSizeBytes r2 fileSize) fileSize minFileSize
    match probe with
    | ProbeOutcome.fail e => addFailure r3 ("ffprobe failed: " ++ e)
    | ProbeOutcome.ok data =>
      let videoStreams := data.streams.filter (fun s => s.codecType == "video")
      let audioStreams := data.streams.filter (fun s => s.codecType == "audio")
      let r4 := setStreamFlags r3 (!videoStreams.isEmpty) (!audioStreams.isEmpty)
      match videoStreams with
      | [] => addFailure r4 "No video stream found"
      | vs :: _ =>
        let r6 := checkAudioStep (addCheck r4 "has_video_stream")
          requireAudio audioStreams.isEmpty
        let actualDur : ℚ := match data.fmtDuration with
          | some q => q
          | none => vs.duration.getD 0
        let r7 := setVideoProps r6 vs.width vs.height actualDur
        checkResolutionStep
          (checkDurationStep r7 expectedDuration actualDur durationTolerance)
          expectedWidth expectedHeight vs.width vs.height

/-- Invariant of `VerificationResult` as produced by `verify_video`:
`passed` holds exactly when no failure was recorded. -/
def ResultInv (r : VerificationResult) : Prop :=
  r.passed = true ↔ r.failures = []

lemma resultInv_init : ResultInv initResult := by
  unfold ResultInv initResult
  simp

lemma resultInv_addCheck (r : VerificationResult) (m : String) (h : ResultInv r) :
    ResultInv (addCheck r m) := h

lemma resultInv_addFailure (r : VerificationResult) (m : String) :
    ResultInv (addFailure r m) := by
  unfold ResultInv addFailure
  simp

lemma resultInv_fileSize (r : VerificationResult) (fs mfs : Nat) (h : ResultInv r) :
    ResultInv (checkFileSizeStep r fs mfs) := by
  unfold checkFileSizeStep
  split
  · exact resultInv_addFailure r _
  · exact resultInv_addCheck r _ h

lemma resultInv_audio (r : VerificationResult) (ra ae : Bool) (h : ResultInv r) :
    ResultInv (checkAudioStep r ra ae) := by
  unfold checkAudioStep
  split
  · exact resultInv_addFailure r _
  · split
    · exact resultInv_addCheck r _ h
    · exact h

lemma resultInv_duration (r : VerificationResult) (ed : Option ℚ) (ad tol : ℚ)
    (h : ResultInv r) : ResultInv (checkDurationStep r ed ad tol) := by
  unfold checkDurationStep
  split
  · exact h
  · split
    · exact resultInv_addFailure r _
    · exact resultInv_addCheck r _ h

lemma resultInv_setSize (r : VerificationResult) (n : Nat) (h : ResultInv r) :
    ResultInv (setSizeBytes r n) := h

lemma resultInv_setStreams (r : VerificationResult) (hv ha : Bool) (h : ResultInv r) :
    ResultInv (setStreamFlags r hv ha) := h

lemma resultInv_setProps (r : VerificationResult) (w hh : Nat) (d : ℚ) (h : ResultInv r) :
    ResultInv (setVideoProps r w hh d) := h

lemma resultInv_resolution (r : VerificationResult) (ew eh : Option Nat) (w hh : Nat)
    (h : ResultInv r) : ResultInv (checkResolutionStep r ew eh w hh) := by
  unfold checkResolutionStep
  split
  · split
    · exact resultInv_addFailure r _
    · exact resultInv_addCheck r _ h
  · exact h

lemma verifyVideo_resultInv (path : String) (fileExists : Bool)
    (fileSize : Nat) (probe : ProbeOutcome) (edur : Option ℚ) (ew eh : Option Nat)
    (ra : Bool) (mfs : Nat) (tol : ℚ) :
    ResultInv (verifyVideo path fileExists fileSize probe edur ew eh ra mfs tol) := by
  unfold verifyVideo
  split
  · exact resultInv_addFailure initResult _
  · cases probe with
    | fail e =>
      exact resultInv_addFailure _ _
    | ok data =>
      cases hvs : data.streams.filter (fun s => s.codecType == "video") with
      | nil =>
        simp only []
        rw [hvs]
        exact resultInv_addFailure _ _
      | cons vs rest =>
        simp only []
        rw [hvs]
        dsimp only
        exact resultInv_resolution _ _ _ _ _
          (resultInv_duration _ _ _ _
            (resultInv_setProps _ _ _ _
              (resultInv_audio _ _ _
                (resultInv_addCheck _ _
                  (resultInv_setStreams _ _ _
                    (resultInv_fileSize _ _ _
                      (resultInv_setSize _ _
                        (resultInv_addCheck _ _ resultInv_init))))))))

/-- C10: every `VerificationResult` returned by `verify_video` satisfies
`passed = true` iff the `failures` list is empty — each appended failure sets
`passed` to `False` (the two mutations only ever occur together), and
`passed` is never reset to `True` afterwards. -/
theorem verify_passed_iff_no_failures (path : String) (fileExists : Bool)
    (fileSize : Nat) (probe : ProbeOutcome) (edur : Option ℚ) (ew eh : Option Nat)
    (ra : Bool) (mfs : Nat) (tol : ℚ) :
    (verifyVideo path fileExists fileSize probe edur ew eh ra mfs tol).passed = true ↔
      (verifyVideo path fileExists fileSize probe edur ew eh ra mfs tol).failures = [] :=
  verifyVideo_resultInv path fileExists fileSize probe edur ew eh ra mfs tol

/-- Boolean prefix test on strings (Python messages are compared by their
leading literal). -/
def strHasPrefix (s pre : String) : Bool :=
  pre.data.isPrefixOf s.data

/-- Generic accounting: some check entry satisfies `pc` or some failure entry
satisfies `pf`. -/
def AccountedBy (r : VerificationResult) (pc pf : String → Prop) : Prop :=
  (∃ m ∈ r.checks, pc m) ∨ (∃ m ∈ r.failures, pf m)

/-- File-existence category appears in `checks` or `failures`. -/
def accountsExistence (r : VerificationResult) : Prop :=
  AccountedBy r (fun m => m = "file_exists")
    (fun m => strHasPrefix m "File not found: " = true)

/-- File-size category appears in `checks` or `failures`. -/
def accountsSize (r : VerificationResult) : Prop :=
  AccountedBy r (fun m => strHasPrefix m "file_size=" = true)
    (fun m => strHasPrefix m "File too small: " = true)

/-- Audio category appears in `checks` or `failures`. -/
def accountsAudio (r : VerificationResult) : Prop :=
  AccountedBy r (fun m => m = "has_audio_stream")
    (fun m => m = "No audio stream found (required)")

/-- Duration category appears in `checks` or `failures`. -/
def accountsDuration (r : VerificationResult) : Prop :=
  AccountedBy r (fun m => strHasPrefix m "duration=" = true)
    (fun m => strHasPrefix m "Duration mismatch: expected " = true)

/-- Resolution category appears in `checks` or `failures`. -/
def accountsResolution (r : VerificationResult) : Prop :=
  AccountedBy r (fun m => strHasPrefix m "resolution=" = true)
    (fun m => strHasPrefix m "Resolution mismatch: expected " = true)

/-- List-extension order on results: later steps only append to `checks` and
`failures`, never remove. -/
def ResultEx (r r' : VerificationResult) : Prop :=
  (∀ x ∈ r.checks, x ∈ r'.checks) ∧ (∀ x ∈ r.failures, x ∈ r'.failures)

lemma resultEx_refl (r : VerificationResult) : ResultEx r r :=
  ⟨fun _ h => h, fun _ h => h⟩

lemma resultEx_trans {a b c : VerificationResult} (h1 : ResultEx a b)
    (h2 : ResultEx b c) : ResultEx a c :=
  ⟨fun x hx => h2.1 x (h1.1 x hx), fun x hx => h2.2 x (h1.2 x hx)⟩

lemma resultEx_addCheck (r : VerificationResult) (m : String) :
    ResultEx r (addCheck r m) :=
  ⟨fun _ hx => List.mem_append_left _ hx, fun _ hx => hx⟩

lemma resultEx_addFailure (r : VerificationResult) (m : String) :
    ResultEx r (addFailure r m) :=
  ⟨fun _ hx => hx, fun _ hx => List.mem_append_left _ hx⟩

lemma resultEx_fileSize (r : VerificationResult) (fs mfs : Nat) :
    ResultEx r (checkFileSizeStep r fs mfs) := by
  unfold checkFileSizeStep
  split
  · exact resultEx_addFailure r _
  · exact resultEx_addCheck r _

lemma resultEx_audio (r : VerificationResult) (ra ae : Bool) :
    ResultEx r (checkAudioStep r ra ae) := by
  unfold checkAudioStep
  split
  · exact resultEx_addFailure r _
  · split
    · exact resultEx_addCheck r _
    · exact resultEx_refl r

lemma resultEx_duration (r : VerificationResult) (ed : Option ℚ) (ad tol : ℚ) :
    ResultEx r (checkDurationStep r ed ad tol) := by
  unfold checkDurationStep
  split
  · exact resultEx_refl r
  · split
    · exact resultEx_addFailure r _
    · exact resultEx_addCheck r _

lemma resultEx_resolution (r : VerificationResult) (ew eh : Option Nat) (w hh : Nat) :
    ResultEx r (checkResolutionStep r ew eh w hh) := by
  unfold checkResolutionStep
  split
  · split
    · exact resultEx_addFailure r _
    · exact resultEx_addCheck r _
  · exact resultEx_refl r

lemma accountedBy_mono {r r' : VerificationResult} {pc pf : String → Prop}
    (hext : ResultEx r r') (h : AccountedBy r pc pf) : AccountedBy r' pc pf := by
  rcases h with ⟨m, hm, hp⟩ | ⟨m, hm, hp⟩
  · exact Or.inl ⟨m, hext.1 m hm, hp⟩
  · exact Or.inr ⟨m, hext.2 m hm, hp⟩

lemma strHasPrefix_append (pre t : String) : strHasPrefix (pre ++ t) pre = true := by
  unfold strHasPrefix
  rw [String.data_append]
  exact List.isPrefixOf_iff_prefix.mpr (List.prefix_append _ _)

lemma accountsSize_fileSizeStep (r : VerificationResult) (fs mfs : Nat) :
    accountsSize (checkFileSizeStep r fs mfs) := by
  unfold accountsSize checkFileSizeStep
  split
  · refine Or.inr ⟨"File too small: " ++ (toString fs ++ " bytes (min " ++ toString mfs ++ ")"), ?_, ?_⟩
    · show _ ∈ r.failures ++ [_]
      simp [String.append_assoc]
    · exact strHasPrefix_append _ _
  · refine Or.inl ⟨"file_size=" ++ toString fs, ?_, strHasPrefix_append _ _⟩
    show _ ∈ r.checks ++ [_]
    simp

lemma accountsAudio_audioStep (r : VerificationResult) (ae : Bool) :
    accountsAudio (checkAudioStep r true ae) := by
  unfold accountsAudio checkAudioStep
  cases ae with
  | true =>
    simp only [Bool.true_and, if_pos]
    refine Or.inr ⟨"No audio stream found (required)", ?_, rfl⟩
    show _ ∈ r.failures ++ [_]
    simp
  | false =>
    simp only [Bool.and_false, Bool.not_false, if_true]
    refine Or.inl ⟨"has_audio_stream", ?_, rfl⟩
    show _ ∈ r.checks ++ [_]
    simp

lemma accountsDuration_durationStep (r : VerificationResult) (ed : Option ℚ)
    (ad tol : ℚ) (h : ed ≠ none) : accountsDuration (checkDurationStep r ed ad tol) := by
  unfold accountsDuration checkDurationStep
  cases ed with
  | none => exact absurd rfl h
  | some d =>
    simp only []
    split
    · refine Or.inr ⟨"Duration mismatch: expected "
        ++ (toString d ++ "s, got " ++ toString ad ++ "s (tolerance " ++ toString tol ++ "s)"),
        ?_, strHasPrefix_append _ _⟩
      show _ ∈ r.failures ++ [_]
      simp [String.append_assoc]
    · refine Or.inl ⟨"duration=" ++ (toString ad ++ "s"), ?_, strHasPrefix_append _ _⟩
      show _ ∈ r.checks ++ [_]
      simp [String.append_assoc]

lemma accountsResolution_resolutionStep (r : VerificationResult) (ew eh : Option Nat)
    (w hh : Nat) (h1 : ew ≠ none) (h2 : eh ≠ none) :
    accountsResolution (checkResolutionStep r ew eh w hh) := by
  unfold accountsResolution checkResolutionStep
  cases ew with
  | none => exact absurd rfl h1
  | some ew' =>
    cases eh with
    | none => exact absurd rfl h2
    | some eh' =>
      simp only []
      split
      · refine Or.inr ⟨"Resolution mismatch: expected "
          ++ (toString ew' ++ "x" ++ toString eh' ++ ", got " ++ toString w ++ "x" ++ toString hh),
          ?_, strHasPrefix_append _ _⟩
        show _ ∈ r.failures ++ [_]
        simp [String.append_assoc]
      · refine Or.inl ⟨"resolution=" ++ (toString w ++ "x" ++ toString hh), ?_,
          strHasPrefix_append _ _⟩
        show _ ∈ r.checks ++ [_]
        simp [String.append_assoc]

lemma resultEx_setSizeBytes (r : VerificationResult) (n : Nat) :
    ResultEx r (setSizeBytes r n) := resultEx_refl r

lemma resultEx_setStreamFlags (r : VerificationResult) (hv ha : Bool) :
    ResultEx r (setStreamFlags r hv ha) := resultEx_refl r

lemma resultEx_setVideoProps (r : VerificationResult) (w hh : Nat) (d : ℚ) :
    ResultEx r (setVideoProps r w hh d) := resultEx_refl r

lemma accountsExistence_addCheck :
    accountsExistence (addCheck initResult "file_exists") := by
  unfold accountsExistence AccountedBy addCheck initResult
  exact Or.inl ⟨"file_exists", by simp, rfl⟩

/-- C5 counterexample: the claim that all checks still run after an earlier
one fails is false as stated — the file-missing, ffprobe-failure and
no-video-stream failures each return immediately.  With a missing file and an
expected duration, the result accounts for no duration category at all. -/
theorem verify_completeness_cex :
    (verifyVideo "v.mp4" false 0 (ProbeOutcome.fail "") (some 16) none none false
        10000 2).failures = ["File not found: v.mp4"] ∧
      (verifyVideo "v.mp4" false 0 (ProbeOutcome.fail "") (some 16) none none false
        10000 2).checks = [] ∧
      ¬ accountsDuration (verifyVideo "v.mp4" false 0 (ProbeOutcome.fail "") (some 16)
        none none false 10000 2) := by
  refine ⟨rfl, rfl, ?_⟩
  intro h
  rcases h with ⟨m, hm, hp⟩ | ⟨m, hm, hp⟩
  · have : (verifyVideo "v.mp4" false 0 (ProbeOutcome.fail "") (some 16) none none false
        10000 2).checks = [] := rfl
    rw [this] at hm
    simp at hm
  · have : (verifyVideo "v.mp4" false 0 (ProbeOutcome.fail "") (some 16) none none false
        10000 2).failures = ["File not found: v.mp4"] := rfl
    rw [this] at hm
    rw [List.mem_singleton] at hm
    subst hm
    exact absurd hp (by decide)

/-- C5 amended: once the three gating checks pass — the file exists, ffprobe
parses, and a video stream is present — `verify_video`'s result accounts for
every expectation category in `checks ++ failures`: file existence, file
size, audio (when required), duration (when expected) and resolution (when
expected) each leave a check entry or a failure entry, and no later check is
suppressed by an earlier failure.  As stated the claim is false: each of the
three gating failures returns immediately, silently skipping the remaining
categories. -/
theorem verify_completeness (path : String) (fileSize : Nat) (data : FfProbeData)
    (edur : Option ℚ) (ew eh : Option Nat) (ra : Bool) (mfs : Nat) (tol : ℚ)
    (hvideo : data.streams.filter (fun s => s.codecType == "video") ≠ []) :
    accountsExistence (verifyVideo path true fileSize (ProbeOutcome.ok data) edur ew eh ra mfs tol) ∧
      accountsSize (verifyVideo path true fileSize (ProbeOutcome.ok data) edur ew eh ra mfs tol) ∧
      (ra = true →
        accountsAudio (verifyVideo path true fileSize (ProbeOutcome.ok data) edur ew eh ra mfs tol)) ∧
      (edur ≠ none →
        accountsDuration (verifyVideo path true fileSize (ProbeOutcome.ok data) edur ew eh ra mfs tol)) ∧
      (ew ≠ none → eh ≠ none →
        accountsResolution (verifyVideo path true fileSize (ProbeOutcome.ok data) edur ew eh ra mfs tol)) := by
  obtain ⟨vs, rest, hvs⟩ := List.exists_cons_of_ne_nil hvideo
  unfold verifyVideo
  dsimp only
  rw [hvs]
  dsimp only
  refine ⟨?_, ?_, ?_, ?_, ?_⟩
  · exact accountedBy_mono (resultEx_resolution _ _ _ _ _)
      (accountedBy_mono (resultEx_duration _ _ _ _)
        (accountedBy_mono (resultEx_setVideoProps _ _ _ _)
          (accountedBy_mono (resultEx_audio _ _ _)
            (accountedBy_mono (resultEx_addCheck _ _)
              (accountedBy_mono (resultEx_setStreamFlags _ _ _)
                (accountedBy_mono (resultEx_fileSize _ _ _)
                  (accountedBy_mono (resultEx_setSizeBytes _ _)
                    accountsExistence_addCheck)))))))
  · exact accountedBy_mono (resultEx_resolution _ _ _ _ _)
      (accountedBy_mono (resultEx_duration _ _ _ _)
        (accountedBy_mono (resultEx_setVideoProps _ _ _ _)
          (accountedBy_mono (resultEx_audio _ _ _)
            (accountedBy_mono (resultEx_addCheck _ _)
              (accountedBy_mono (resultEx_setStreamFlags _ _ _)
                (accountsSize_fileSizeStep _ _ _))))))
  · intro hra
    subst hra
    exact accountedBy_mono (resultEx_resolution _ _ _ _ _)
      (accountedBy_mono (resultEx_duration _ _ _ _)
        (accountedBy_mono (resultEx_setVideoProps _ _ _ _)
          (accountsAudio_audioStep _ _)))
  · intro hedur
    exact accountedBy_mono (resultEx_resolution _ _ _ _ _)
      (accountsDuration_durationStep _ _ _ _ hedur)
  · intro h1 h2
    exact accountsResolution_resolutionStep _ _ _ _ _ h1 h2

/-- Witness for the amended C5 at a concrete input: existing file, parsed
probe with one video and one audio stream, all expectations supplied. -/
theorem verify_completeness_witness :
    ([⟨"video", 1080, 1920, some 16⟩, ⟨"audio", 0, 0, some 16⟩] : List FfStream).filter
        (fun s => s.codecType == "video") ≠ [] ∧
      accountsDuration (verifyVideo "v.mp4" true 50000
        (ProbeOutcome.ok ⟨[⟨"video", 1080, 1920, some 16⟩, ⟨"audio", 0, 0, some 16⟩], some 16⟩)
        (some 16) (some 1080) (some 1920) true 10000 2) := by
  have h : ([⟨"video", 1080, 1920, some 16⟩, ⟨"audio", 0, 0, some 16⟩] : List FfStream).filter
      (fun s => s.codecType == "video") ≠ [] := by decide
  exact ⟨h,
    (verify_completeness "v.mp4" 50000
      ⟨[⟨"video", 1080, 1920, some 16⟩, ⟨"audio", 0, 0, some 16⟩], some 16⟩
      (some 16) (some 1080) (some 1920) true 10000 2 h).2.2.2.1 (by simp)⟩

/-- Python substring test `needle in hay`. -/
def strContains (hay needle : String) : Bool :=
  (List.range (hay.data.length + 1)).any (fun i => needle.data.isPrefixOf (hay.data.drop i))

/-- Retry trigger of the streaming pipelines
(`generate_animated_story.py`, lines 330 and 1322):
`not verification.passed and any("Resolution" in f for f in verification.failures)`. -/
def autoRetryCondition (v : VerificationResult) : Bool :=
  !v.passed && v.failures.any (fun f => strContains f "Resolution")

/-- Structural notion of "the verification failed due to a resolution
mismatch": a failure entry carrying the resolution-mismatch message.  Within
`verify_video`'s message set this prefix identifies the category exactly. -/
def resolutionMismatchRecorded (v : VerificationResult) : Bool :=
  v.failures.any (fun f => strHasPrefix f "Resolution mismatch: expected ")

/-- Outcome of the post-assembly verification step with its one-shot repair. -/
structure RepairRun where
  finalVerification : VerificationResult
  concatRetries : Nat
  deriving DecidableEq

/-- Embedding of the post-assembly repair of the streaming pipelines
(`generate_animated_story.py`, lines 320-344 and 1311-1345): verify, and if
the retry trigger fires, re-run the concatenation (the call passes the
1080×1920 target to `concatenate_scenes`) followed by one re-verification
— `reRun` stands for that re-concatenate-and-re-verify step, an external
effect.  There is no loop: at most one retry ever happens and its result is
not re-checked for the trigger. -/
def postAssemblyRepair (v1 : VerificationResult) (reRun : Unit → VerificationResult) :
    RepairRun :=
  if autoRetryCondition v1 then ⟨reRun (), 1⟩ else ⟨v1, 0⟩

lemma strHasPrefix_of_prefix_data (s pre sub : String) (h : sub.data <+: pre.data)
    (hp : strHasPrefix s pre = true) : strHasPrefix s sub = true := by
  unfold strHasPrefix at hp ⊢
  exact List.isPrefixOf_iff_prefix.mpr (h.trans (List.isPrefixOf_iff_prefix.mp hp))

lemma strContains_of_hasPrefix (hay needle : String)
    (h : strHasPrefix hay needle = true) : strContains hay needle = true := by
  unfold strContains
  refine List.any_eq_true.mpr ⟨0, ?_, ?_⟩
  · exact List.mem_range.mpr (Nat.succ_pos _)
  · simpa [strHasPrefix] using h

/-- C6 counterexample: the retry is triggered by a textual substring test
(`"Resolution" in f`), not by the failure's kind.  A video path containing
the substring `Resolution` makes a file-not-found failure trigger the
retry with no resolution mismatch recorded. -/
theorem resolution_retry_cex :
    (postAssemblyRepair
        (verifyVideo "story_Resolution_final.mp4" false 0 (ProbeOutcome.fail "")
          none none none false 10000 2)
        (fun _ => verifyVideo "story_Resolution_final.mp4" false 0 (ProbeOutcome.fail "")
          none none none false 10000 2)).concatRetries = 1 ∧
      resolutionMismatchRecorded
        (verifyVideo "story_Resolution_final.mp4" false 0 (ProbeOutcome.fail "")
          none none none false 10000 2) = false := by
  constructor
  · decide
  · decide

/-- C6 amended: after post-assembly verification the concatenation step is
re-run at most once, and it is re-run exactly when some failure message
contains the substring `"Resolution"`; under the proviso that the only such
messages are genuine resolution-mismatch failures (true unless the video
path or the ffprobe error text itself contains `"Resolution"`, since both are
interpolated into failure messages), the retry fires if and only if the
verification failed due to a resolution mismatch, and any other failure kind
is reported as-is with no automatic retry.  (The retry call passes the
1080×1920 target to `concatenate_scenes`; per-clip normalization still
happens there only when the probed resolutions disagree.) -/
theorem resolution_retry_iff (path : String) (fileExists : Bool) (fileSize : Nat)
    (probe : ProbeOutcome) (edur : Option ℚ) (ew eh : Option Nat) (ra : Bool)
    (mfs : Nat) (tol : ℚ) (reRun : Unit → VerificationResult)
    (H : ∀ f ∈ (verifyVideo path fileExists fileSize probe edur ew eh ra mfs tol).failures,
      strContains f "Resolution" = true →
        strHasPrefix f "Resolution mismatch: expected " = true) :
    ((postAssemblyRepair (verifyVideo path fileExists fileSize probe edur ew eh ra mfs tol)
        reRun).concatRetries = 1 ↔
      resolutionMismatchRecorded
        (verifyVideo path fileExists fileSize probe edur ew eh ra mfs tol) = true) ∧
      (postAssemblyRepair (verifyVideo path fileExists fileSize probe edur ew eh ra mfs tol)
        reRun).concatRetries ≤ 1 := by
  have hinv := verifyVideo_resultInv path fileExists fileSize probe edur ew eh ra mfs tol
  constructor
  · constructor
    · intro h1
      unfold postAssemblyRepair at h1
      by_cases hc : autoRetryCondition
          (verifyVideo path fileExists fileSize probe edur ew eh ra mfs tol) = true
      · unfold autoRetryCondition at hc
        rw [Bool.and_eq_true] at hc
        obtain ⟨_, hany⟩ := hc
        obtain ⟨f, hf, hcont⟩ := List.any_eq_true.mp hany
        unfold resolutionMismatchRecorded
        exact List.any_eq_true.mpr ⟨f, hf, H f hf hcont⟩
      · rw [if_neg hc] at h1
        exact absurd h1 (by simp)
    · intro hrec
      obtain ⟨f, hf, hpre⟩ := List.any_eq_true.mp hrec
      have hpassed : (verifyVideo path fileExists fileSize probe edur ew eh ra mfs
          tol).passed = false := by
        by_contra hp
        rw [Bool.not_eq_false] at hp
        have hnil := (hinv.mp hp)
        rw [hnil] at hf
        exact List.not_mem_nil f hf
      have hcont : strContains f "Resolution" = true :=
        strContains_of_hasPrefix f "Resolution"
          (strHasPrefix_of_prefix_data f "Resolution mismatch: expected " "Resolution"
            (by decide) hpre)
      have hc : autoRetryCondition
          (verifyVideo path fileExists fileSize probe edur ew eh ra mfs tol) = true := by
        unfold autoRetryCondition
        rw [hpassed, Bool.and_eq_true]
        exact ⟨rfl, List.any_eq_true.mpr ⟨f, hf, hcont⟩⟩
      unfold postAssemblyRepair
      rw [if_pos hc]
  · unfold postAssemblyRepair
    split
    · exact le_refl 1
    · exact Nat.zero_le 1

/-- Witness for the amended C6 at a concrete all-passing verification: no
failure mentions `Resolution`, no retry fires, no mismatch is recorded. -/
theorem resolution_retry_iff_witness :
    ((postAssemblyRepair (verifyVideo "ok.mp4" true 50000
          (ProbeOutcome.ok ⟨[⟨"video", 1080, 1920, some 16⟩], some 16⟩)
          none (some 1080) (some 1920) false 10000 2)
        (fun _ => initResult)).concatRetries = 1 ↔
      resolutionMismatchRecorded (verifyVideo "ok.mp4" true 50000
          (ProbeOutcome.ok ⟨[⟨"video", 1080, 1920, some 16⟩], some 16⟩)
          none (some 1080) (some 1920) false 10000 2) = true) ∧
      (postAssemblyRepair (verifyVideo "ok.mp4" true 50000
          (ProbeOutcome.ok ⟨[⟨"video", 1080, 1920, some 16⟩], some 16⟩)
          none (some 1080) (some 1920) false 10000 2)
        (fun _ => initResult)).concatRetries ≤ 1 :=
  resolution_retry_iff "ok.mp4" true 50000
    (ProbeOutcome.ok ⟨[⟨"video", 1080, 1920, some 16⟩], some 16⟩)
    none (some 1080) (some 1920) false 10000 2 (fun _ => initResult)
    (by
      intro f hf _
      have hnil : (verifyVideo "ok.mp4" true 50000
          (ProbeOutcome.ok ⟨[⟨"video", 1080, 1920, some 16⟩], some 16⟩)
          none (some 1080) (some 1920) false 10000 2).failures = [] := rfl
      rw [hnil] at hf
      exact absurd hf (List.not_mem_nil f))

/-- Probe record of `VideoComposer._probe_video` (`compose_final.py`, lines
48-87): `width`/`height` default to 0 when the ffprobe JSON lacks them;
`codec` defaults to `"unknown"`.  The float `duration` field is only logged
and is omitted.  A failed probe (subprocess error, JSON error, missing
stream entry) is `none`. -/
structure VideoProbe where
  width : Nat
  height : Nat
  codec : String
  deriving DecidableEq

/-- Resolution set of `concatenate_scenes` (`compose_final.py`, lines
212-215): the distinct `(width, height)` pairs of successfully probed clips
with positive dimensions (`if probe and probe.width > 0 and probe.height > 0`).
The Python `set` is modelled as a deduplicated list; only its size is read. -/
def validResolutions (probes : List (Option VideoProbe)) : List (Nat × Nat) :=
  (((probes.filterMap id).filter (fun p => 0 < p.width ∧ 0 < p.height)).map
    (fun p => (p.width, p.height))).dedup

/-- Observable trace of one `concatenate_scenes` call. -/
structure ConcatRun where
  needsNormalize : Bool
  normalizeCalls : Nat
  clipsToConcat : List String
  streamCopy : Bool
  manifestDeleted : Bool
  normDirCreated : Bool
  normDirRemoved : Bool
  raised : Bool
  output : Option String
  deriving DecidableEq

/-- Embedding of `VideoComposer.concatenate_scenes` (`compose_final.py`,
lines 174-283).  External effects are inputs: `probes` is the per-clip
`_probe_video` outcome (one per scene path), `normalizeOk i` whether the
i-th `_normalize_clip` subprocess succeeds (on failure the original clip is
used as fallback), `ffmpegOk` whether the final concat subprocess succeeds.
`needs_normalize = len(resolutions) > 1`; when set, `_normalize_clip` is
called once per scene path.  Both ffmpeg command branches use `-c copy`
(stream copy).  The concat manifest is unlinked and the normalization
directory removed only after a successful concat; a failed concat re-raises
with no cleanup. -/
def concatenateScenes (scenePaths : List String) (outputName : String)
    (probes : List (Option VideoProbe)) (normalizeOk : List Bool)
    (ffmpegOk : Bool) : ConcatRun :=
  let nn := decide (1 < (validResolutions probes).length)
  let clips := if nn then
      (scenePaths.zip normalizeOk).enum.map (fun pr =>
        if pr.2.2 then outputName ++ "_norm/clip_" ++ toString pr.1 ++ ".mp4" else pr.2.1)
    else scenePaths
  { needsNormalize := nn
    normalizeCalls := if nn then scenePaths.length else 0
    clipsToConcat := clips
    streamCopy := true
    manifestDeleted := ffmpegOk
    normDirCreated := nn
    normDirRemoved := ffmpegOk && nn
    raised := !ffmpegOk
    output := if ffmpegOk then some (outputName ++ ".mp4") else none }

lemma dedup_length_le_one {α : Type} [DecidableEq α] (l : List α)
    (h : ∀ a ∈ l, ∀ b ∈ l, a = b) : l.dedup.length ≤ 1 := by
  cases hd : l.dedup with
  | nil => simp
  | cons a t =>
    cases ht : t with
    | nil => simp
    | cons b t2 =>
      exfalso
      have hnd := l.nodup_dedup
      rw [hd, ht] at hnd
      have ha : a ∈ l.dedup := by rw [hd]; exact List.mem_cons_self _ _
      have hb : b ∈ l.dedup := by
        rw [hd, ht]
        exact List.mem_cons_of_mem _ (List.mem_cons_self _ _)
      rw [List.mem_dedup] at ha hb
      have hab : a = b := h a ha b hb
      rw [List.nodup_cons] at hnd
      exact hnd.1 (hab ▸ List.mem_cons_self b t2)

lemma one_lt_dedup_length {α : Type} [DecidableEq α] (l : List α) (a b : α)
    (ha : a ∈ l) (hb : b ∈ l) (hne : a ≠ b) : 1 < l.dedup.length := by
  by_contra hle
  push_neg at hle
  cases hd : l.dedup with
  | nil =>
    have := List.mem_dedup.mpr ha
    rw [hd] at this
    exact List.not_mem_nil a this
  | cons x t =>
    rw [hd] at hle
    have ht : t = [] := by
      simp only [List.length_cons] at hle
      exact List.eq_nil_of_length_eq_zero (by omega)
    have ha' := List.mem_dedup.mpr ha
    have hb' := List.mem_dedup.mpr hb
    rw [hd, ht] at ha' hb'
    rw [List.mem_singleton] at ha' hb'
    exact hne (ha'.trans hb'.symm)

/-- C3 counterexample: "successfully probed" is not the code's criterion —
probes with a zero dimension are skipped when collecting resolutions.  With
one successful probe of `(0,0)` (ffprobe JSON lacking width/height) and one
of `(1080,1920)`, two probed resolutions differ, yet `needs_normalize` stays
false and zero normalization calls are made. -/
theorem concat_resolution_cex :
    (concatenateScenes ["a.mp4", "b.mp4"] "out"
        [some ⟨0, 0, "h264"⟩, some ⟨1080, 1920, "h264"⟩] [true, true] true).needsNormalize
        = false ∧
      (concatenateScenes ["a.mp4", "b.mp4"] "out"
        [some ⟨0, 0, "h264"⟩, some ⟨1080, 1920, "h264"⟩] [true, true] true).normalizeCalls
        = 0 ∧
      ((⟨0, 0, "h264"⟩ : VideoProbe).width, (⟨0, 0, "h264"⟩ : VideoProbe).height)
        ≠ ((⟨1080, 1920, "h264"⟩ : VideoProbe).width, (⟨1080, 1920, "h264"⟩ : VideoProbe).height) := by
  refine ⟨by decide, by decide, by decide⟩

/-- C3 amended: restrict "probed resolutions" to successfully probed clips
with positive width and height (the code skips zero dimensions).  If all such
clips share one `(width, height)`, concatenation performs zero
normalization/re-encode calls and uses stream copy; if any two such
resolutions differ, `_normalize_clip` is invoked once for every one of the N
clips before concatenation. -/
theorem concat_resolution_invariant (scenePaths : List String) (outputName : String)
    (probes : List (Option VideoProbe)) (normalizeOk : List Bool) (ffmpegOk : Bool) :
    ((∀ p ∈ probes.filterMap id, ∀ q ∈ probes.filterMap id,
        0 < p.width → 0 < p.height → 0 < q.width → 0 < q.height →
        (p.width, p.height) = (q.width, q.height)) →
      (concatenateScenes scenePaths outputName probes normalizeOk ffmpegOk).needsNormalize
          = false ∧
        (concatenateScenes scenePaths outputName probes normalizeOk ffmpegOk).normalizeCalls
          = 0) ∧
    ((∃ p ∈ probes.filterMap id, ∃ q ∈ probes.filterMap id,
        0 < p.width ∧ 0 < p.height ∧ 0 < q.width ∧ 0 < q.height ∧
        (p.width, p.height) ≠ (q.width, q.height)) →
      (concatenateScenes scenePaths outputName probes normalizeOk ffmpegOk).normalizeCalls
        = scenePaths.length) ∧
    (concatenateScenes scenePaths outputName probes normalizeOk ffmpegOk).streamCopy = true := by
  refine ⟨?_, ?_, rfl⟩
  · intro hall
    have hle : (validResolutions probes).length ≤ 1 := by
      unfold validResolutions
      refine dedup_length_le_one _ ?_
      intro a hamem b hbmem
      obtain ⟨p, hp, hpa⟩ := List.mem_map.mp hamem
      obtain ⟨q, hq, hqb⟩ := List.mem_map.mp hbmem
      rw [List.mem_filter] at hp hq
      have hpv := of_decide_eq_true hp.2
      have hqv := of_decide_eq_true hq.2
      rw [← hpa, ← hqb]
      exact hall p hp.1 q hq.1 hpv.1 hpv.2 hqv.1 hqv.2
    have hnn : decide (1 < (validResolutions probes).length) = false := by
      rw [decide_eq_false_iff_not]
      omega
    unfold concatenateScenes
    refine ⟨hnn, ?_⟩
    show (if decide (1 < (validResolutions probes).length) = true then scenePaths.length else 0) = 0
    rw [hnn]
    simp
  · intro hdiff
    obtain ⟨p, hp, q, hq, hpw, hph, hqw, hqh, hne⟩ := hdiff
    have hone : 1 < (validResolutions probes).length := by
      unfold validResolutions
      refine one_lt_dedup_length _ (p.width, p.height) (q.width, q.height) ?_ ?_ hne
      · exact List.mem_map.mpr ⟨p,
          List.mem_filter.mpr ⟨hp, decide_eq_true ⟨hpw, hph⟩⟩, rfl⟩
      · exact List.mem_map.mpr ⟨q,
          List.mem_filter.mpr ⟨hq, decide_eq_true ⟨hqw, hqh⟩⟩, rfl⟩
    unfold concatenateScenes
    show (if decide (1 < (validResolutions probes).length) = true then scenePaths.length else 0)
      = scenePaths.length
    rw [decide_eq_true hone]
    simp

/-- Witness for the amended C3: two clips probing to the identical
1080×1920 → no normalization; the mixed-resolution branch is vacuous. -/
theorem concat_resolution_invariant_witness :
    (concatenateScenes ["a.mp4", "b.mp4"] "out"
        [some ⟨1080, 1920, "h264"⟩, some ⟨1080, 1920, "h264"⟩] [true, true] true).needsNormalize
        = false ∧
      (concatenateScenes ["a.mp4", "b.mp4"] "out"
        [some ⟨1080, 1920, "h264"⟩, some ⟨1080, 1920, "h264"⟩] [true, true] true).normalizeCalls
        = 0 :=
  (concat_resolution_invariant ["a.mp4", "b.mp4"] "out"
    [some ⟨1080, 1920, "h264"⟩, some ⟨1080, 1920, "h264"⟩] [true, true] true).1
    (by decide)

/-- C9 counterexample: the concat manifest and the normalized-clip directory
are deleted only on the success path.  When the concat subprocess fails, the
error propagates and both temporaries are left behind. -/
theorem concat_cleanup_cex :
    (concatenateScenes ["a.mp4", "b.mp4"] "out"
        [some ⟨720, 1280, "h264"⟩, some ⟨1080, 1920, "h264"⟩] [true, true]
        false).normDirCreated = true ∧
      (concatenateScenes ["a.mp4", "b.mp4"] "out"
        [some ⟨720, 1280, "h264"⟩, some ⟨1080, 1920, "h264"⟩] [true, true]
        false).manifestDeleted = false ∧
      (concatenateScenes ["a.mp4", "b.mp4"] "out"
        [some ⟨720, 1280, "h264"⟩, some ⟨1080, 1920, "h264"⟩] [true, true]
        false).normDirRemoved = false ∧
      (concatenateScenes ["a.mp4", "b.mp4"] "out"
        [some ⟨720, 1280, "h264"⟩, some ⟨1080, 1920, "h264"⟩] [true, true]
        false).raised = true := by
  refine ⟨by decide, by decide, by decide, by decide⟩

/-- C9 amended: concatenation temporaries are deleted exactly on the success
path — the manifest is unlinked iff the concat subprocess succeeds, and the
normalized-clip directory (when created) is removed iff it succeeds; on the
failure path the exception propagates and both artifacts remain on disk. -/
theorem concat_cleanup_success_only (scenePaths : List String) (outputName : String)
    (probes : List (Option VideoProbe)) (normalizeOk : List Bool) (ffmpegOk : Bool) :
    (concatenateScenes scenePaths outputName probes normalizeOk ffmpegOk).manifestDeleted
        = ffmpegOk ∧
      (concatenateScenes scenePaths outputName probes normalizeOk ffmpegOk).normDirRemoved
        = (ffmpegOk &&
          (concatenateScenes scenePaths outputName probes normalizeOk ffmpegOk).needsNormalize) ∧
      (concatenateScenes scenePaths outputName probes normalizeOk ffmpegOk).raised
        = !ffmpegOk :=
  ⟨rfl, rfl, rfl⟩

/-- Outcome of one `generate_minimal_motion_clip` call inside the retry loop
(`generate_animated_story.py`, lines 249-273): the call raises, returns a
result with `video_path = None`, or succeeds with a path and duration. -/
inductive AttemptOutcome where
  | raised
  | noVideo
  | success (path : String) (durationSeconds : ℚ)
  deriving DecidableEq

/-- Test for a non-successful attempt (exception or missing video path). -/
def AttemptOutcome.failed : AttemptOutcome → Bool
  | .success _ _ => false
  | _ => true

/-- Trace of one unit's retry loop: the final `video_result` (reduced to the
clip data when generation produced a video path), the number of generator
calls, and the number of 2-second retry sleeps performed. -/
structure UnitRun where
  result : Option (String × ℚ)
  calls : Nat
  sleeps : Nat
  deriving DecidableEq

/-- Embedding of the loop `for attempt in range(max_attempts)` of
`generate_animated_story_streaming` (`generate_animated_story.py`, lines
249-273; identical in `_generate_all_clips`, lines 936-948): before every
retry (`attempt > 0`) sleep, then call the generator; break on a result with
a video path; a raised exception is logged and the loop continues — so a
unit is failed iff no attempt succeeded, covering both `video_result is
None` and `video_result.video_path is None`. -/
def runUnitGo (o : Nat → AttemptOutcome) (attempt : Nat) : Nat → UnitRun
  | 0 => { result := none, calls := 0, sleeps := 0 }
  | remaining + 1 =>
    match o attempt with
    | .success p d =>
      { result := some (p, d), calls := 1, sleeps := if attempt > 0 then 1 else 0 }
    | _ =>
      let rest := runUnitGo o (attempt + 1) remaining
      { result := rest.result, calls := rest.calls + 1,
        sleeps := rest.sleeps + (if attempt > 0 then 1 else 0) }

/-- Constant `max_attempts = 3` of the retry loops. -/
def MAX_ATTEMPTS : Nat := 3

/-- Full retry loop for one generation unit. -/
def runUnit (o : Nat → AttemptOutcome) : UnitRun :=
  runUnitGo o 0 MAX_ATTEMPTS

/-- Environment of one per-panel generation unit: whether its panel image
path resolved, and the oracle of generator outcomes per attempt index. -/
structure UnitEnv where
  hasPanelPath : Bool
  outcome : Nat → AttemptOutcome

/-- Result of the clip-generation phase. -/
structure GenPhase where
  clips : List (String × ℚ)
  clipsFailed : Nat
  errored : Bool

/-- Per-panel loop of `generate_animated_story_streaming`
(`generate_animated_story.py`, lines 230-287): a unit with no panel path is
skipped and counted failed; otherwise the retry loop runs and a unit whose
final result has no video path is counted failed, while a success appends
`(path, duration)` to `clips` in panel order. -/
def generateLoop : List UnitEnv → List (String × ℚ) × Nat
  | [] => ([], 0)
  | u :: rest =>
    let r := generateLoop rest
    if u.hasPanelPath then
      match (runUnit u.outcome).result with
      | some c => (c :: r.1, r.2)
      | none => (r.1, r.2 + 1)
    else (r.1, r.2 + 1)

/-- Embedding of the clip-generation phase of
`generate_animated_story_streaming` (`generate_animated_story.py`, lines
213-299): an error event is emitted when no panel path is valid
(`valid_count == 0`, before any generation) or when, after the loop, no
clip was generated (`if not clips`).  Failed units never raise out of the
phase — every exception is caught inside the retry loop. -/
def generatePhase (units : List UnitEnv) : GenPhase :=
  if (units.filter (fun u => u.hasPanelPath)).length = 0 then
    { clips := [], clipsFailed := 0, errored := true }
  else
    { clips := (generateLoop units).1, clipsFailed := (generateLoop units).2,
      errored := (generateLoop units).1.isEmpty }

lemma runUnitGo_all_failed (o : Nat → AttemptOutcome) :
    ∀ (n attempt : Nat),
      (∀ k, attempt ≤ k → k < attempt + n → (o k).failed = true) →
      runUnitGo o attempt n
        = { result := none, calls := n, sleeps := if attempt > 0 then n else n - 1 } := by
  intro n
  induction n with
  | zero =>
    intro attempt _
    simp only [runUnitGo]
    cases attempt <;> simp
  | succ m ih =>
    intro attempt h
    have hfail := h attempt (le_refl _) (by omega)
    rw [runUnitGo]
    cases hoa : o attempt with
    | success p d => rw [hoa] at hfail; simp [AttemptOutcome.failed] at hfail
    | raised =>
      have hrest := ih (attempt + 1) (fun k hk1 hk2 => h k (by omega) (by omega))
      simp only [hrest]
      cases attempt with
      | zero => simp
      | succ a =>
        simp only [Nat.succ_sub_one]
        have h1 : a + 1 > 0 := Nat.succ_pos a
        have h2 : a + 1 + 1 > 0 := Nat.succ_pos _
        simp only [if_pos h1, if_pos h2]
    | noVideo =>
      have hrest := ih (attempt + 1) (fun k hk1 hk2 => h k (by omega) (by omega))
      simp only [hrest]
      cases attempt with
      | zero => simp
      | succ a =>
        simp only [Nat.succ_sub_one]
        have h1 : a + 1 > 0 := Nat.succ_pos a
        have h2 : a + 1 + 1 > 0 := Nat.succ_pos _
        simp only [if_pos h1, if_pos h2]

lemma generateLoop_spec (units : List UnitEnv) :
    (generateLoop units).1
        = units.filterMap (fun u => if u.hasPanelPath then (runUnit u.outcome).result else none) ∧
      (generateLoop units).1.length + (generateLoop units).2 = units.length := by
  induction units with
  | nil => exact ⟨rfl, rfl⟩
  | cons u rest ih =>
    rw [generateLoop, List.filterMap_cons]
    by_cases hp : u.hasPanelPath
    · rw [if_pos hp]
      simp only [hp, if_true]
      cases hr : (runUnit u.outcome).result with
      | some c =>
        simp only []
        refine ⟨by rw [ih.1], ?_⟩
        simp only [List.length_cons]
        have := ih.2
        omega
      | none =>
        simp only []
        refine ⟨ih.1, ?_⟩
        have := ih.2
        simp only [List.length_cons]
        omega
    · rw [if_neg hp]
      simp only [Bool.not_eq_true] at hp
      simp only [hp]
      refine ⟨ih.1, ?_⟩
      have := ih.2
      simp only [List.length_cons]
      omega

/-- C4: a generation unit that fails on every attempt is attempted exactly
`MAX_ATTEMPTS = 3` times, no more and no less, with the fixed 2-second sleep
before each of its two retries; it ends with no video result, is excluded
from the `clips` list used for concatenation and counted in `clips_failed`
rather than raising (all exceptions are caught inside the loop); and the
generation phase errors exactly when zero clips succeed. -/
theorem retry_budget (o : Nat → AttemptOutcome) (units : List UnitEnv)
    (hfail : ∀ k, k < MAX_ATTEMPTS → (o k).failed = true) :
    runUnit o = { result := none, calls := 3, sleeps := 2 } ∧
      ((generatePhase units).errored = true ↔ (generatePhase units).clips = []) ∧
      ((units.filter (fun u => u.hasPanelPath)).length ≠ 0 →
        (generatePhase units).clips.length + (generatePhase units).clipsFailed
          = units.length) ∧
      (generatePhase units).clips
        = units.filterMap
            (fun u => if u.hasPanelPath then (runUnit u.outcome).result else none) := by
  refine ⟨?_, ?_, ?_, ?_⟩
  · unfold runUnit
    have := runUnitGo_all_failed o MAX_ATTEMPTS 0 (fun k h1 h2 => hfail k (by omega))
    rw [this]
    rfl
  · unfold generatePhase
    split
    · simp
    · simp only []
      rw [List.isEmpty_iff]
  · intro hvc
    unfold generatePhase
    rw [if_neg hvc]
    exact (generateLoop_spec units).2
  · unfold generatePhase
    split
    · rename_i hvc
      rw [List.length_eq_zero] at hvc
      rw [List.filter_eq_nil_iff] at hvc
      symm
      rw [List.filterMap_eq_nil_iff]
      intro u hu
      rw [if_neg ?_]
      intro hup
      exact hvc u hu hup
    · exact (generateLoop_spec units).1

/-- Witness for C4: one unit failing all three attempts (two raises and one
empty result) next to one succeeding unit — three calls, two sleeps, one
failure recorded, no phase error. -/
theorem retry_budget_witness :
    (∀ k, k < MAX_ATTEMPTS →
      ((fun n => if n = 1 then AttemptOutcome.noVideo else AttemptOutcome.raised) k).failed
        = true) ∧
      runUnit (fun n => if n = 1 then AttemptOutcome.noVideo else AttemptOutcome.raised)
        = { result := none, calls := 3, sleeps := 2 } ∧
      ((generatePhase
          [⟨true, fun n => if n = 1 then AttemptOutcome.noVideo else AttemptOutcome.raised⟩,
           ⟨true, fun _ => AttemptOutcome.success "clip.mp4" 4⟩]).errored = true ↔
        (generatePhase
          [⟨true, fun n => if n = 1 then AttemptOutcome.noVideo else AttemptOutcome.raised⟩,
           ⟨true, fun _ => AttemptOutcome.success "clip.mp4" 4⟩]).clips = []) := by
  have hfail : ∀ k, k < MAX_ATTEMPTS →
      ((fun n => if n = 1 then AttemptOutcome.noVideo else AttemptOutcome.raised) k).failed
        = true := by decide
  have h := retry_budget
    (fun n => if n = 1 then AttemptOutcome.noVideo else AttemptOutcome.raised)
    [⟨true, fun n => if n = 1 then AttemptOutcome.noVideo else AttemptOutcome.raised⟩,
     ⟨true, fun _ => AttemptOutcome.success "clip.mp4" 4⟩] hfail
  exact ⟨hfail, h.1, h.2.1⟩

end VibeCut
